import Mathlib

/-!
Verification of the kichn kitchen-management server against its specification.

The development shallowly embeds the parts of the Python sources that the
checked properties touch:

* `src/server/modules/database.py` — grocery/inventory mutation for one kitchen
  (`buy_product`, `use_product`, `set_groc_product_count`,
  `_set_inv_product_count`, `_inv_product`, `_groc_product`), the account and
  kitchen-membership operations (`create_user`, `create_kitchen`,
  `share_kitchen`, `leave_kitchen`, `user_has_access_to_kitchen`), and the
  grocery page-model assembly (`grocery_page_model`).
* `src/server/modules/search.py` — the buffered default-product index queue.
* `src/server/modules/sharing.py` — the WebSocket manager's subscription state.
* `src/server/modules/barcodes.py` — `read_barcodes`.
* `src/server/scraper.py` — the page fan-out of `scrape_category`.

Modelling conventions, used throughout:

* Redis JSON documents are modelled by Lean functions from keys to `Option`
  records (for the top-level `user:{email}` keys and the entries of the
  `kitchens` document) and by association lists for the JSON objects whose
  entries the code enumerates (inventory expiry maps, the search-index buffer).
* A Python call that raises an uncaught exception is modelled by a `none`
  result; the comment at each `none` names the exception the source raises
  there.
* Calendar dates are identified with their (non-negative) Unix timestamps,
  matching the storage format the code itself uses
  (`int(time.mktime(expiry.timetuple()))`, read back via
  `date.fromtimestamp`); the sentinel key `-1` marks non-expiring stock.
-/

/-! ### Association-list primitives for JSON objects with `Int` keys

The inventory entry of a product is the JSON object `expiry → amount`.
Its keys are expiry timestamps (or `-1`), its values amounts. -/

/-- Value stored under key `k` of a JSON object, if any. -/
def lookupA : List (Int × Int) → Int → Option Int
  | [], _ => none
  | p :: t, k => if p.1 = k then some p.2 else lookupA t k

/-- Deletion of key `k` from a JSON object (`JSON.DEL` on that path). -/
def eraseA (l : List (Int × Int)) (k : Int) : List (Int × Int) :=
  l.filter (fun p => p.1 != k)

/-- Write of value `v` under key `k` of a JSON object (`JSON.SET` on that
path): replaces the value when the key exists and adds the key otherwise. -/
def insertA (l : List (Int × Int)) (k : Int) (v : Int) : List (Int × Int) :=
  if (lookupA l k).isSome then
    l.map (fun p => if p.1 = k then (k, v) else p)
  else l ++ [(k, v)]

/-- Sum of the values of a JSON object, as computed by the wildcard read
`self._rj.get(..., "$.kid.inventory.pid.*")` in `_inv_product`. -/
def sumVals (l : List (Int × Int)) : Int :=
  (l.map Prod.snd).sum

/-! ### Grocery and inventory state of one kitchen (`database.py`)

`KitchenState` is the projection of one kitchen's JSON record onto the two
fields the list-mutation operations read and write: the flat grocery object
`product_id → amount` and the nested inventory object
`product_id → (expiry → amount)`.  The accompanying search-index writes
performed by these operations are not part of the state; no checked property
mentions them. -/

structure KitchenState where
  grocery : String → Option Int
  inventory : String → Option (List (Int × Int))

/-- Embedding of `DatabaseClient._set_inv_product_count`.  The optional
`expiry` date is its timestamp; `none` is stored under the `-1` sentinel.
An amount `≤ 0` deletes that one expiry key (a no-op when the product has no
inventory entry).  Otherwise the code reads the product's total amount via
`_inv_product`; when the total is `0` it first overwrites the product's entry
with an empty object, then writes the amount under the expiry key. -/
def setInvCount (st : KitchenState) (p : String) (expiry : Option Nat)
    (amount : Int) : KitchenState :=
  let ts : Int := match expiry with
    | some d => (d : Int)
    | none => -1
  if amount ≤ 0 then
    { st with inventory := fun q =>
        if q = p then (st.inventory q).map (fun inner => eraseA inner ts)
        else st.inventory q }
  else
    let inner0 := (st.inventory p).getD []
    let base := if sumVals inner0 = 0 then [] else inner0
    { st with inventory := fun q =>
        if q = p then some (insertA base ts amount) else st.inventory q }

/-- Embedding of `DatabaseClient.set_groc_product_count`: an amount `≤ 0`
deletes the product's grocery entry, a positive amount overwrites it. -/
def setGrocCount (st : KitchenState) (p : String) (amount : Int) :
    KitchenState :=
  if amount ≤ 0 then
    { st with grocery := fun q => if q = p then none else st.grocery q }
  else
    { st with grocery := fun q => if q = p then some amount else st.grocery q }

/-- Embedding of `DatabaseClient.buy_product`.  The optional expiry date is
its timestamp.  The grocery amount drops by `amount`; the inventory write uses
`expiries.get(expiry_date, 0) + amount` for a dated expiry but the literal `0`
(not the current non-expirable count — the source line carries a TODO) when no
expiry is given. -/
def buy_product (st : KitchenState) (p : String) (expiry : Option Nat)
    (amount : Int) : KitchenState :=
  let g := (st.grocery p).getD 0
  let st1 := setGrocCount st p (g - amount)
  let raw := (st1.inventory p).getD []
  let initAmt : Int := match expiry with
    | none => 0
    | some d => (lookupA raw (d : Int)).getD 0
  setInvCount st1 p expiry (initAmt + amount)

/-- One iteration of the `for expiry in expiry_amounts` loop of
`use_product`.  `raw` is the expiry object of the product as read once before
the loop (`inv_prod`).  A dated expiry absent from that snapshot raises
`KeyError` (`inv_prod.expiries[expiry]`), modelled by `none`; the
non-expirable branch uses `.get`-like access and cannot raise. -/
def useStep (raw : List (Int × Int)) (p : String)
    (acc : Option KitchenState) (ea : Option Nat × Int) : Option KitchenState :=
  acc.bind fun s =>
    match ea.1 with
    | some d =>
      match lookupA raw (d : Int) with
      | some init => some (setInvCount s p (some d) (init - ea.2))
      | none => none
    | none => some (setInvCount s p none ((lookupA raw (-1)).getD 0 - ea.2))

/-- Embedding of `DatabaseClient.use_product`.  `eas` lists the entries of the
`expiry_amounts` dict in iteration order.  When `move` is set, the sum of all
used amounts is added to the product's current grocery amount. -/
def use_product (st : KitchenState) (p : String) (eas : List (Option Nat × Int))
    (move : Bool) : Option KitchenState :=
  let raw := (st.inventory p).getD []
  let afterLoop := eas.foldl (useStep raw p) (some st)
  if move then
    afterLoop.map fun s =>
      let total := (eas.map Prod.snd).sum
      let g := (s.grocery p).getD 0
      setGrocCount s p (g + total)
  else afterLoop

/-! ### Accounts and kitchen membership (`database.py`)

`GState` is the projection of the store onto the fields the account and
membership operations touch: per-user owned/shared kitchen-id lists and
per-kitchen non-admin member lists.  The password hash, user name and the
kitchen's name/grocery/inventory/custom-product fields do not influence these
operations. -/

structure UserRec where
  ownedKitchens : List String
  sharedKitchens : List String
deriving DecidableEq

structure KitchenRec where
  nonAdmins : List String
deriving DecidableEq

structure GState where
  users : String → Option UserRec
  kitchens : String → Option KitchenRec

/-- Store state before any operation has run: no `user:{email}` keys, and an
empty `kitchens` document. -/
def initialG : GState :=
  { users := fun _ => none, kitchens := fun _ => none }

/-- Functional update of one user record. -/
def updUsers (g : GState) (email : String) (u : UserRec) : GState :=
  { g with users := fun e => if e = email then some u else g.users e }

/-- Functional update of one kitchen record. -/
def updKitchens (g : GState) (kid : String) (k : KitchenRec) : GState :=
  { g with kitchens := fun k2 => if k2 = kid then some k else g.kitchens k2 }

/-- Embedding of `DatabaseClient.create_user` (the fields relevant to
membership: both kitchen lists start empty).  Returns `false` without mutating
when the email already has an account. -/
def create_user (g : GState) (email : String) : GState × Bool :=
  if (g.users email).isSome then (g, false)
  else (updUsers g email ⟨[], []⟩, true)

/-- Embedding of `DatabaseClient.user_has_access_to_kitchen`.  The JSON read
of `$.sharedKitchens` returns nil for a missing `user:{email}` key and the
code subscripts it (`[0]`), raising `TypeError` — hence `none` when the user
does not exist. -/
def user_has_access (g : GState) (email kid : String) : Option Bool :=
  (g.users email).map fun u =>
    u.ownedKitchens.contains kid || u.sharedKitchens.contains kid

/-- Embedding of `DatabaseClient.create_kitchen`.  `kid` stands for the value
returned by `_gen_random_id()`.  Returns the store state after the call and
whether the call completed without raising.  The kitchen record is written
first (overwriting any record already stored under `kid`, as `JSON.SET`
does); the `JSON.ARRAPPEND` on the creator's `ownedKitchens` raises when that
top-level user key is missing, and Redis performs no rollback, so the raising
call still leaves the freshly written (owner-less) kitchen record behind. -/
def create_kitchen (g : GState) (email kid : String) : GState × Bool :=
  let g1 := updKitchens g kid ⟨[]⟩
  match g1.users email with
  | none => (g1, false)
  | some u =>
    (updUsers g1 email { u with ownedKitchens := u.ownedKitchens ++ [kid] },
     true)

/-- Embedding of `DatabaseClient.share_kitchen`.  Returns the store state
after the call and the returned boolean — `none` when the call raised.  The
access check runs first and raises `TypeError` for an unknown email (see
`user_has_access`), before any write, so the `self._r.exists` guard that
should return `false` is unreachable for unknown emails.  When the target
lacks access, the kitchen id is appended to the user's `sharedKitchens`; the
subsequent `JSON.ARRAPPEND` on the `$`-JSONPath `$.{kid}.nonAdmins` of the
existing `kitchens` document matches nothing when no such kitchen record
exists and returns an empty per-path result rather than an error, so the
call completes returning `True` having mutated only the user's list. -/
def share_kitchen (g : GState) (kid email : String) : GState × Option Bool :=
  match user_has_access g email kid with
  | none => (g, none)
  | some true => (g, some true)
  | some false =>
    if (g.users email).isNone then (g, some false)
    else
      match g.users email with
      | none => (g, none)
      | some u =>
        let g1 := updUsers g email
          { u with sharedKitchens := u.sharedKitchens ++ [kid] }
        match g1.kitchens kid with
        | none => (g1, some true)
        | some k =>
          (updKitchens g1 kid
            { k with nonAdmins := k.nonAdmins ++ [email] }, some true)

/-- Embedding of `DatabaseClient.leave_kitchen`.  Returns the store state
after the call and whether the call completed without raising.  Reading the
user's `sharedKitchens` raises for a missing user (no write yet);
`list.remove` raises `ValueError` when the element is absent — before any
write on the user side, but after the user-side `JSON.SET` on the kitchen
side; the `[0]` on the `$`-JSONPath read of `$.{kid}.nonAdmins` raises
`IndexError` when the kitchen record is missing, likewise after the
user-side write, which persists.  Python's `list.remove` drops the first
occurrence, as `List.erase` does. -/
def leave_kitchen (g : GState) (email kid : String) : GState × Bool :=
  match g.users email with
  | none => (g, false)
  | some u =>
    if u.sharedKitchens.contains kid then
      let g1 := updUsers g email
        { u with sharedKitchens := u.sharedKitchens.erase kid }
      match g1.kitchens kid with
      | none => (g1, false)
      | some k =>
        if k.nonAdmins.contains email then
          (updKitchens g1 kid
            { k with nonAdmins := k.nonAdmins.erase email }, true)
        else (g1, false)
    else (g, false)

/-- States reachable from the empty store by the account and
kitchen-membership operations, raising calls included: the store keeps every
write a call performed before raising (no rollback), so each step takes the
post-call state whether or not the call completed. -/
inductive Reachable : GState → Prop where
  | init : Reachable initialG
  | createUser (g : GState) (email : String) :
      Reachable g → Reachable (create_user g email).1
  | createKitchen (g : GState) (email kid : String) :
      Reachable g → Reachable (create_kitchen g email kid).1
  | shareKitchen (g : GState) (kid email : String) :
      Reachable g → Reachable (share_kitchen g kid email).1
  | leaveKitchen (g : GState) (email kid : String) :
      Reachable g → Reachable (leave_kitchen g email kid).1

/-- Reachability under the operating conditions of the amended claim:
kitchens are created by existing accounts under fresh random ids, and
sharing always names an existing kitchen.  Sign-up and leaving are
unrestricted, as is the target email of a share (an unknown email raises
before any write). -/
inductive ReachableOk : GState → Prop where
  | init : ReachableOk initialG
  | createUser (g : GState) (email : String) :
      ReachableOk g → ReachableOk (create_user g email).1
  | createKitchen (g : GState) (email kid : String) :
      ReachableOk g → (g.users email).isSome = true →
      g.kitchens kid = none → ReachableOk (create_kitchen g email kid).1
  | shareKitchen (g : GState) (kid email : String) :
      ReachableOk g → (g.kitchens kid).isSome = true →
      ReachableOk (share_kitchen g kid email).1
  | leaveKitchen (g : GState) (email kid : String) :
      ReachableOk g → ReachableOk (leave_kitchen g email kid).1

/-- The membership-symmetry property of claim C9: a kitchen id appears in some
user's owned or shared list exactly when a kitchen record with that id exists,
and an email appears in a kitchen's non-admin list exactly when that kitchen's
id appears in that user's shared list. -/
def MemSym (g : GState) : Prop :=
  (∀ kid, (∃ email u, g.users email = some u ∧
      (kid ∈ u.ownedKitchens ∨ kid ∈ u.sharedKitchens)) ↔
      ∃ k, g.kitchens kid = some k) ∧
  (∀ kid k, g.kitchens kid = some k → ∀ email,
      email ∈ k.nonAdmins ↔ ∃ u, g.users email = some u ∧ kid ∈ u.sharedKitchens)

/-- Auxiliary strengthening of `MemSym` used for the induction: the mutated
lists stay duplicate-free and every kitchen record has an owner. -/
def KInv (g : GState) : Prop :=
  MemSym g ∧
  (∀ email u, g.users email = some u → u.sharedKitchens.Nodup) ∧
  (∀ kid k, g.kitchens kid = some k → k.nonAdmins.Nodup) ∧
  (∀ kid k, g.kitchens kid = some k →
    ∃ email u, g.users email = some u ∧ kid ∈ u.ownedKitchens)

/-! ### Search client (`search.py`)

`SearchState` records the in-memory default-index buffer (an insertion-ordered
dict `product_id → name`) and the batches submitted to the engine so far, each
tagged with the index it was added to. -/

structure SearchState where
  buffer : List (String × String)
  submitted : List (String × List (String × String))
deriving DecidableEq

/-- Entry write of Python's `dict.update`: an existing key has its value
replaced in place, a new key is appended. -/
def dictInsert (l : List (String × String)) (k v : String) :
    List (String × String) :=
  if l.any (fun p => p.1 == k) then
    l.map (fun p => if p.1 == k then (k, v) else p)
  else l ++ [(k, v)]

/-- Python's `self._default_index_buffer.update(product_names)` over the
entries of `product_names` in iteration order. -/
def dictUpdate (l names : List (String × String)) : List (String × String) :=
  names.foldl (fun acc p => dictInsert acc p.1 p.2) l

/-- Embedding of `SearchClient._add_products_to_index`: builds one document
per buffered pair and submits them as a single batch, unless the document
list is empty (Meilisearch rejects empty batches, so the code skips them). -/
def addProductsToIndex (st : SearchState) (indexName : String)
    (productNames : List (String × String)) : SearchState :=
  if productNames.isEmpty then st
  else { st with submitted := st.submitted ++ [(indexName, productNames)] }

/-- Embedding of `SearchClient.flush_default_index_queue`. -/
def flush_default_index_queue (st : SearchState) : SearchState :=
  let st1 := addProductsToIndex st "default" st.buffer
  { st1 with buffer := [] }

/-- Embedding of `SearchClient.index_default_products`: merge the new entries
into the buffer, then flush once the buffer holds 1000 or more entries. -/
def index_default_products (st : SearchState)
    (names : List (String × String)) : SearchState :=
  let st1 := { st with buffer := dictUpdate st.buffer names }
  if 1000 ≤ st1.buffer.length then flush_default_index_queue st1 else st1

/-! ### Grocery page assembly (`database.py`, `grocery_page_model`)

The external search engine is abstracted by the two id lists its two queries
return (`search_grocery_products` and `search_default_products`); the default
catalog and the kitchen's custom-product map are the read-only inputs of
product resolution. -/

structure GroceryProduct where
  id : String
  name : String
  category : String
  amount : Int
deriving DecidableEq

/-- Embedding of `DatabaseClient._product`: a default-catalog hit wins;
otherwise the custom map is consulted, with the category forced to
`"Custom product"`.  A product in neither raises (`[0]` on an empty JSON
match list), modelled by `none`.  `catalog` maps a default product id to its
`(name, category)` pair; `custom` maps a custom product id to its name. -/
def resolveProduct (catalog : String → Option (String × String))
    (custom : String → Option String) (pid : String) :
    Option (String × String) :=
  match catalog pid with
  | some nc => some nc
  | none => (custom pid).map (fun n => (n, "Custom product"))

/-- Embedding of `DatabaseClient._groc_product`: the resolved product together
with its grocery amount (`0` when the product has no grocery entry). -/
def grocProduct (catalog : String → Option (String × String))
    (custom : String → Option String) (grocery : String → Option Int)
    (pid : String) : Option GroceryProduct :=
  (resolveProduct catalog custom pid).map fun nc =>
    { id := pid, name := nc.1, category := nc.2,
      amount := (grocery pid).getD 0 }

/-- Candidate id list of `grocery_page_model`: the grocery-index hits, and —
only for a non-empty query — the default-catalog hits not already present.
Python computes the addition as the set difference
`set(default_products) - set(product_ids)` and iterates it in unspecified set
order; the checked ordering properties do not depend on that order, which is
fixed here as first occurrences in `defaultIds` order. -/
def mkProductIds (grocIds defaultIds : List String) (query : String) :
    List String :=
  if query = "" then grocIds
  else grocIds ++ (defaultIds.eraseDups.filter (fun i => !(grocIds.contains i)))

/-- Append of one product to its category's bucket, creating the bucket at the
end on first use — Python's insertion-ordered `grocery_products` dict. -/
def bucketAppend (d : List (String × List GroceryProduct)) (c : String)
    (p : GroceryProduct) : List (String × List GroceryProduct) :=
  if d.any (fun e => e.1 == c) then
    d.map (fun e => if e.1 == c then (e.1, e.2 ++ [p]) else e)
  else d ++ [(c, [p])]

/-- Lookup `grocery_products[cat]` (the key is always present when used). -/
def bucketFind (d : List (String × List GroceryProduct)) (c : String) :
    List GroceryProduct :=
  ((d.find? (fun e => e.1 == c)).map Prod.snd).getD []

/-- Well-formedness of the insertion-ordered category dict built by the
bucketing loop: keys are distinct, every product sits in the bucket named by
its (possibly re-labelled) category, and a zero-amount product only ever sits
in the `"Unowned products"` bucket. -/
def BucketsOK (d : List (String × List GroceryProduct)) : Prop :=
  (d.map Prod.fst).Nodup ∧
  ∀ e ∈ d, ∀ p ∈ e.2,
    p.category = e.1 ∧ (p.amount = 0 → e.1 = "Unowned products")

/-- Name ordering on grocery products, the `key=lambda p: p.name` of the
within-category sort. -/
def nameLe (p q : GroceryProduct) : Prop :=
  p.name ≤ q.name

instance : DecidableRel nameLe := fun p q => by
  unfold nameLe; infer_instance

instance : IsTotal GroceryProduct nameLe :=
  ⟨fun p q => le_total p.name q.name⟩

instance : IsTrans GroceryProduct nameLe :=
  ⟨fun _ _ _ h1 h2 => le_trans h1 h2⟩

/-- One iteration of the bucketing loop of `grocery_page_model`: the resolved
product is re-labelled `"Unowned products"` when its grocery amount is zero,
then appended to its category's bucket.  A product id that resolves to
neither a default nor a custom product raises, modelled by `none`. -/
def bucketStep (catalog : String → Option (String × String))
    (custom : String → Option String) (grocery : String → Option Int)
    (acc : Option (List (String × List GroceryProduct))) (pid : String) :
    Option (List (String × List GroceryProduct)) :=
  acc.bind fun d =>
    (grocProduct catalog custom grocery pid).map fun p0 =>
      let p := if p0.amount = 0 then
          { p0 with category := "Unowned products" } else p0
      bucketAppend d p.category p

/-- Category-bucketing loop of `grocery_page_model` over the candidate id
list, starting from the empty insertion-ordered dict. -/
def buildBuckets (catalog : String → Option (String × String))
    (custom : String → Option String) (grocery : String → Option Int)
    (pids : List String) : Option (List (String × List GroceryProduct)) :=
  pids.foldl (bucketStep catalog custom grocery) (some [])

/-- Category ordering and within-category sort of `grocery_page_model`: all
categories but `"Unowned products"` in ascending order, `"Unowned products"`
last when present, each bucket sorted by product name.  Python's `sorted` is
modelled by `List.insertionSort` (same elements, sorted; the claims do not
observe the order of ties). -/
def orderBuckets (d : List (String × List GroceryProduct)) :
    List (String × List GroceryProduct) :=
  let keys := d.map Prod.fst
  let sortedKeys :=
    List.insertionSort (· ≤ ·) (keys.filter (fun c => c != "Unowned products"))
  let withU := sortedKeys ++
    (if keys.contains "Unowned products" then ["Unowned products"] else [])
  withU.map (fun c => (c, List.insertionSort nameLe (bucketFind d c)))

/-- Embedding of `DatabaseClient.grocery_page_model`, reduced to its
`category → products` map (the attached user and kitchen metadata take no part
in the grouping). -/
def grocery_page_model (catalog : String → Option (String × String))
    (custom : String → Option String) (grocery : String → Option Int)
    (grocIds defaultIds : List String) (query : String) :
    Option (List (String × List GroceryProduct)) :=
  (buildBuckets catalog custom grocery
      (mkProductIds grocIds defaultIds query)).map orderBuckets

/-! ### WebSocket manager (`sharing.py`)

Closure identity matters to the manager (topic sets hold one freshly created
closure per subscribe call and topic), so updater closures are modelled by the
tag `(call id, topic index)`; `WSState.nextCallId` supplies fresh call ids.
`messageUpdaters` records which session tokens have an entry in
`_message_based_updaters` — the only observable the checked claims need from
that dict. -/

structure UnsubData where
  entries : List (String × Nat × Nat)
  hadReceiver : Bool
  tok : String

structure WSState where
  topicUpdaters : String → Option (List (Nat × Nat))
  messageUpdaters : List String
  unsubscribers : String → Option UnsubData
  nextCallId : Nat

/-- Manager state right after `WebSocketManager.__init__`: every table
empty. -/
def freshWS : WSState :=
  { topicUpdaters := fun _ => none, messageUpdaters := [],
    unsubscribers := fun _ => none, nextCallId := 0 }

/-- Embedding of the `unsubscribe` closure built by `subscribe`: removes each
recorded updater from its topic's set (`KeyError` when the topic key or the
set element is missing — `none`), then pops the session's
`_message_based_updaters` entry when a receiving renderer was supplied
(`KeyError` when that entry is absent — `none`). -/
def runUnsub (st : WSState) (u : UnsubData) : Option WSState :=
  let removed := u.entries.foldl
    (fun acc e => acc.bind fun s =>
      match s.topicUpdaters e.1 with
      | none => none
      | some l =>
        if e.2 ∈ l then
          some { s with topicUpdaters := fun t =>
            if t = e.1 then some (l.erase e.2) else s.topicUpdaters t }
        else none)
    (some st)
  removed.bind fun s =>
    if u.hadReceiver then
      if s.messageUpdaters.contains u.tok then
        some { s with messageUpdaters := s.messageUpdaters.erase u.tok }
      else none
    else some s

/-- One iteration of the `for topic in topic_renderers` loop of `subscribe`:
`self._topic_based_updaters[topic]` is read with `[]`-indexing, so a topic key
that was never created raises `KeyError` (`none`; `__init__` creates no keys
and no other code does).  Otherwise the fresh updater closure — tagged
`(cid, topic index)` — is added to the topic's set and recorded in the local
`topic_ui_updaters`. -/
def subStep (cid : Nat) (acc : Option (WSState × List (String × Nat × Nat)))
    (it : Nat × String) : Option (WSState × List (String × Nat × Nat)) :=
  acc.bind fun se =>
    match se.1.topicUpdaters it.2 with
    | none => none
    | some l =>
      some ({ se.1 with topicUpdaters := fun t =>
                if t = it.2 then some (l ++ [(cid, it.1)])
                else se.1.topicUpdaters t },
            se.2 ++ [(it.2, cid, it.1)])

/-- Embedding of `WebSocketManager.subscribe`.  Any existing unsubscriber for
the session is popped and run; then the per-topic loop (`subStep`) runs over
the topics.  The closure `update_message_ui` built for `receiving_renderer`
is never stored in `_message_based_updaters`, so `messageUpdaters` is left
unchanged; the unsubscriber closure is recorded last. -/
def subscribe (st : WSState) (tok : String) (topics : List String)
    (hasReceiver : Bool) : Option WSState :=
  let afterUnsub : Option WSState :=
    match st.unsubscribers tok with
    | some u =>
      runUnsub
        { st with unsubscribers := fun t =>
            if t = tok then none else st.unsubscribers t } u
    | none => some st
  afterUnsub.bind fun s0 =>
    let cid := s0.nextCallId
    let folded := topics.enum.foldl (subStep cid) (some (s0, []))
    folded.map fun se =>
      { se.1 with
        unsubscribers := fun t =>
          if t = tok then some ⟨se.2, hasReceiver, tok⟩
          else se.1.unsubscribers t,
        nextCallId := cid + 1 }

/-- One message of `handle_connection`'s receive loop: the session's
message-based updater runs only when `_message_based_updaters` holds an entry
for the session token. -/
def handleMessageRuns (st : WSState) (tok : String) : Bool :=
  st.messageUpdaters.contains tok

/-! ### Barcode reading (`barcodes.py`)

`pyzbar.decode` returns a list of `Decoded` namedtuples
(`data: bytes, type: str, rect, polygon, ...`); the decoded digits live in the
`data` field. -/

structure Decoded where
  data : String
  symbolType : String
deriving DecidableEq

/-- Result of CPython's `int()` constructor applied to a pyzbar `Decoded`
value.  `int()` accepts only strings, bytes-like objects and numbers; a
`Decoded` namedtuple is none of these, so the call raises `TypeError`
unconditionally. -/
def pyIntOfDecoded (_ : Decoded) : Except String Int :=
  Except.error "TypeError"

/-- Embedding of `read_barcodes`, given the decode result for the supplied
image: an empty result returns no value, and otherwise the code evaluates
`int(barcodes[0])` on the first `Decoded` entry. -/
def read_barcodes (decoded : List Decoded) : Except String (Option Int) :=
  match decoded with
  | [] => Except.ok none
  | b :: _ => (pyIntOfDecoded b).map some

/-! ### Scraper page fan-out (`scraper.py`)

`scrape_category` first awaits `scrape_page(session, category, 1)`, whose
return value is the total page count reported by the page-1 response; it then
spawns `scrape_page(session, category, i) for i in range(total_pages)`.  The
function below returns the page numbers requested for one category, in request
order, as a function of that reported total. -/

def scrape_category_pages (totalPages : Nat) : List Nat :=
  1 :: List.range totalPages

/-! ### Concrete states used by evaluation and witness theorems -/

/-- Kitchen holding 5 units of product `"P"` on the grocery list and 2
non-expiring units (stored under the `-1` sentinel key) in the inventory. -/
def stBuy : KitchenState :=
  { grocery := fun q => if q = "P" then some 5 else none,
    inventory := fun q => if q = "P" then some [(-1, 2)] else none }

/-- Store with a single user `"alice"` owning kitchen `"K1"`; the email
`"ghost"` has no account. -/
def gShare : GState :=
  { users := fun e => if e = "alice" then some ⟨["K1"], []⟩ else none,
    kitchens := fun k => if k = "K1" then some ⟨[]⟩ else none }

/-- Kitchen whose inventory for product `"P"` holds 4 units expiring at
timestamp 100 and 6 units at timestamp 200, with no grocery entry. -/
def stUse : KitchenState :=
  { grocery := fun _ => none,
    inventory := fun q => if q = "P" then some [(100, 4), (200, 6)] else none }

/-! ## Theorems -/

/-- C1: evaluation of `buy_product` at the failing input of the claim.  With
grocery amount 5 and non-expiring inventory 2 for product `"P"`, buying 3
units with no expiry leaves grocery amount 2 as claimed, but writes amount 3
— not 2 + 3 = 5 — under the `-1` sentinel key: the code adds `amount` to the
literal `0` instead of the current non-expirable count (the line carries a
TODO admitting as much), so the prior stock under the sentinel key is
overwritten rather than added to. -/
theorem buy_product_overwrites_sentinel_stock :
    (buy_product stBuy "P" none 3).grocery "P" = some 2 ∧
    (buy_product stBuy "P" none 3).inventory "P" = some [(-1, 3)] ∧
    lookupA (((buy_product stBuy "P" none 3).inventory "P").getD []) (-1) =
      some 3 := by
  refine ⟨?_, ?_, ?_⟩ <;> rfl

/-- C2: evaluation of `share_kitchen` at the failing input of the claim.
Sharing kitchen `"K1"` with the account-less email `"ghost"` raises
(`user_has_access_to_kitchen` subscripts the nil JSON read of the missing
`user:ghost` key) instead of returning `false`; the raise happens before any
write, so the store is unchanged. -/
theorem share_kitchen_raises_on_unknown_email :
    (share_kitchen gShare "K1" "ghost").2 = none ∧
    (share_kitchen gShare "K1" "ghost").1 = gShare := by
  exact ⟨rfl, rfl⟩

/-- C5: evaluation of `subscribe` at the failing input of the claim.  On a
fresh manager, subscribing session `"s1"` with a receiving renderer supplied
(and no topics) completes, yet leaves `_message_based_updaters` empty, so a
subsequently received message does not run the renderer: the assignment
`self._message_based_updaters[session_token] = update_message_ui` is missing
from the source. -/
theorem subscribe_receiver_never_registered :
    (subscribe freshWS "s1" [] true).map WSState.messageUpdaters = some [] ∧
    (subscribe freshWS "s1" [] true).map
      (fun s => handleMessageRuns s "s1") = some false := by
  exact ⟨rfl, rfl⟩

/-- Folding the per-topic subscription step from an already-raised
accumulator stays raised. -/
theorem subStep_foldl_none (cid : Nat) :
    ∀ L : List (Nat × String), L.foldl (subStep cid) none = none
  | [] => rfl
  | x :: t => by
    rw [List.foldl_cons]
    exact subStep_foldl_none cid t

/-- C6: on a freshly constructed manager the topic table is empty, so a
subscription naming any topic at all hits the `KeyError` in
`self._topic_based_updaters[topic].add(...)`: the first subscription to each
topic can never succeed. -/
theorem subscribe_fresh_topics_fails (tok : String) (topics : List String)
    (hasReceiver : Bool) (h : topics ≠ []) :
    subscribe freshWS tok topics hasReceiver = none := by
  cases topics with
  | nil => exact absurd rfl h
  | cons t rest =>
    have hfold : ((0, t) :: rest.enumFrom 1).foldl (subStep 0)
        (some (freshWS, ([] : List (String × Nat × Nat)))) = none := by
      rw [List.foldl_cons]
      exact subStep_foldl_none 0 _
    show (((t :: rest).enum.foldl (subStep 0)
        (some (freshWS, []))).map _) = none
    rw [show (t :: rest).enum = (0, t) :: rest.enumFrom 1 from rfl, hfold]
    rfl

/-- C6 witness: the first subscription to topic `"k1.grocery"` on a fresh
manager raises. -/
theorem subscribe_fresh_topics_fails_witness :
    subscribe freshWS "s1" ["k1.grocery"] false = none :=
  subscribe_fresh_topics_fails "s1" ["k1.grocery"] false (by decide)

/-- C7: evaluation of `read_barcodes`.  An image with no decodable barcode
returns no value as claimed, but as soon as pyzbar finds a barcode the code
evaluates `int(barcodes[0])` on a `Decoded` namedtuple, which raises
`TypeError` instead of returning the code — the comment above that line says
the data was expected to be a bytes object. -/
theorem read_barcodes_raises_on_found :
    (∀ b rest, read_barcodes (b :: rest) = Except.error "TypeError") ∧
    read_barcodes [] = Except.ok none :=
  ⟨fun _ _ => rfl, rfl⟩

/-- C8: the default-index queue buffers entries without submitting until the
buffer reaches 1000 entries or an explicit flush: below the threshold nothing
is submitted and the buffer holds the merged entries; at or above it the
entire buffer goes out as one batch-add to the `default` index; flushing
submits the buffer as one batch unless it is empty, and empties it.  In
consequence the buffer holds fewer than 1000 entries after every
`index_default_products` call. -/
theorem default_index_queue_spec (st : SearchState)
    (names : List (String × String)) :
    (index_default_products st names).buffer.length < 1000 ∧
    (index_default_products st names).submitted =
      (if 1000 ≤ (dictUpdate st.buffer names).length then
        st.submitted ++ [("default", dictUpdate st.buffer names)]
       else st.submitted) ∧
    (index_default_products st names).buffer =
      (if 1000 ≤ (dictUpdate st.buffer names).length then []
       else dictUpdate st.buffer names) ∧
    (flush_default_index_queue st).buffer = [] ∧
    (flush_default_index_queue st).submitted =
      (if st.buffer.isEmpty then st.submitted
       else st.submitted ++ [("default", st.buffer)]) := by
  have hflush : ∀ s : SearchState, flush_default_index_queue s =
      ⟨[], if s.buffer.isEmpty then s.submitted
           else s.submitted ++ [("default", s.buffer)]⟩ := by
    intro s
    by_cases h : s.buffer.isEmpty <;>
      simp [flush_default_index_queue, addProductsToIndex, h]
  have hidx : index_default_products st names =
      (if 1000 ≤ (dictUpdate st.buffer names).length then
        flush_default_index_queue ⟨dictUpdate st.buffer names, st.submitted⟩
       else ⟨dictUpdate st.buffer names, st.submitted⟩) := rfl
  refine ⟨?_, ?_, ?_, ?_, ?_⟩
  · rw [hidx]
    by_cases h : 1000 ≤ (dictUpdate st.buffer names).length
    · rw [if_pos h, hflush]
      show ([] : List (String × String)).length < 1000
      decide
    · rw [if_neg h]
      exact Nat.lt_of_not_le h
  · rw [hidx]
    by_cases h : 1000 ≤ (dictUpdate st.buffer names).length
    · rw [if_pos h, if_pos h, hflush]
      have hne : (dictUpdate st.buffer names).isEmpty = false := by
        cases hdu : dictUpdate st.buffer names with
        | nil => rw [hdu] at h; simp at h
        | cons a l => rfl
      simp [hne]
    · rw [if_neg h, if_neg h]
  · rw [hidx]
    by_cases h : 1000 ≤ (dictUpdate st.buffer names).length
    · rw [if_pos h, if_pos h, hflush]
    · rw [if_neg h, if_neg h]
  · rw [hflush]
  · rw [hflush]

/-- C10: evaluation of the scraper's page fan-out for a category whose page-1
response reports 3 total pages.  The code requests pages `[1, 0, 1, 2]`
(`range(total_pages)` after the initial page-1 fetch): page 3 — the last page
— is never requested, page 0 (outside 1..3) is requested, and page 1 is
fetched twice, contradicting the claimed 1-then-2..n schedule. -/
theorem scrape_category_pages_eval :
    scrape_category_pages 3 = [1, 0, 1, 2] ∧
    3 ∉ scrape_category_pages 3 ∧
    (scrape_category_pages 3).count 1 = 2 ∧
    0 ∈ scrape_category_pages 3 := by
  decide

/-- Grocery writes never touch the inventory field. -/
theorem setGrocCount_inventory (s : KitchenState) (p : String) (a : Int) :
    (setGrocCount s p a).inventory = s.inventory := by
  by_cases h : a ≤ 0 <;> simp [setGrocCount, h]

/-- Inventory writes never touch the grocery field. -/
theorem setInvCount_grocery (s : KitchenState) (p : String) (e : Option Nat)
    (a : Int) : (setInvCount s p e a).grocery = s.grocery := by
  by_cases h : a ≤ 0 <;> simp [setInvCount, h]

/-- Setting a dated inventory amount to zero erases that expiry key of the
product's entry. -/
theorem setInvCount_zero_dated (s : KitchenState) (p : String) (d : Nat)
    (inner : List (Int × Int)) (hs : s.inventory p = some inner) :
    (setInvCount s p (some d) 0).inventory p = some (eraseA inner (d : Int)) := by
  simp [setInvCount, hs]

/-- Grocery amount left by `setGrocCount`: zero when the written amount is
non-positive (entry deleted), the amount itself otherwise. -/
theorem setGrocCount_grocery_at (s : KitchenState) (p : String) (a : Int) :
    ((setGrocCount s p a).grocery p).getD 0 = if a ≤ 0 then 0 else a := by
  by_cases h : a ≤ 0 <;> simp [setGrocCount, h]

/-- Key lookup in the association list built from a duplicate-free list of
dated entries returns that entry's amount. -/
theorem lookupA_map_self (m : List (Nat × Int))
    (hnd : (m.map Prod.fst).Nodup) :
    ∀ q ∈ m, lookupA (m.map (fun r => ((r.1 : Int), r.2))) (q.1 : Int) =
      some q.2 := by
  induction m with
  | nil => intro q hq; cases hq
  | cons a t ih =>
    intro q hq
    rw [List.map_cons] at hnd
    rcases List.mem_cons.mp hq with rfl | hqt
    · simp [lookupA]
    · have hne : ((a.1 : Int)) ≠ ((q.1 : Int)) := by
        intro hcontra
        refine (List.nodup_cons.mp hnd).1 ?_
        have hfst : a.1 = q.1 := Nat.cast_injective hcontra
        exact hfst ▸ List.mem_map_of_mem Prod.fst hqt
      have ht := ih (List.nodup_cons.mp hnd).2 q hqt
      simp [lookupA, hne, ht]

/-- Run of the `use_product` loop over dated entries whose amounts match the
snapshot exactly: every step takes the deletion branch, so the product's
expiry object ends up with all the processed keys erased and the grocery
field untouched. -/
theorem useLoop_erases (raw : List (Int × Int)) (p : String) :
    ∀ (l : List (Nat × Int)) (s : KitchenState) (inner : List (Int × Int)),
      (∀ q ∈ l, lookupA raw (q.1 : Int) = some q.2) →
      s.inventory p = some inner →
      ∃ s', (l.map (fun q => ((some q.1 : Option Nat), q.2))).foldl
          (useStep raw p) (some s) = some s' ∧
        s'.inventory p =
          some (l.foldl (fun acc q => eraseA acc ((q.1 : Int))) inner) ∧
        s'.grocery = s.grocery := by
  intro l
  induction l with
  | nil =>
    intro s inner _ hs
    exact ⟨s, rfl, by simpa using hs, rfl⟩
  | cons a t ih =>
    intro s inner hl hs
    have hstep : useStep raw p (some s) ((some a.1 : Option Nat), a.2) =
        some (setInvCount s p (some a.1) 0) := by
      have ha := hl a (List.mem_cons_self a t)
      simp [useStep, ha]
    have hs1 : (setInvCount s p (some a.1) 0).inventory p =
        some (eraseA inner (a.1 : Int)) :=
      setInvCount_zero_dated s p a.1 inner hs
    obtain ⟨s', h1, h2, h3⟩ := ih (setInvCount s p (some a.1) 0)
      (eraseA inner (a.1 : Int))
      (fun q hq => hl q (List.mem_cons_of_mem a hq)) hs1
    refine ⟨s', ?_, ?_, ?_⟩
    · rw [List.map_cons, List.foldl_cons, hstep]
      exact h1
    · rw [List.foldl_cons]
      exact h2
    · rw [h3]
      have := setInvCount_grocery s p (some a.1) 0
      rw [this]

/-- Erasing every key that occurs in the expiry object empties it. -/
theorem foldl_eraseA_nil :
    ∀ (l : List (Nat × Int)) (inner : List (Int × Int)),
      (∀ pr ∈ inner, ∃ q ∈ l, pr.1 = (q.1 : Int)) →
      l.foldl (fun acc q => eraseA acc ((q.1 : Int))) inner = [] := by
  intro l
  induction l with
  | nil =>
    intro inner h
    refine List.eq_nil_iff_forall_not_mem.mpr fun pr hpr => ?_
    obtain ⟨q, hq, _⟩ := h pr hpr
    cases hq
  | cons a t ih =>
    intro inner h
    rw [List.foldl_cons]
    refine ih _ fun pr hpr => ?_
    have hin : pr ∈ inner ∧ (pr.1 != (a.1 : Int)) = true :=
      List.mem_filter.mp hpr
    have hne : pr.1 ≠ (a.1 : Int) := by simpa using hin.2
    obtain ⟨q, hq, hqe⟩ := h pr hin.1
    rcases List.mem_cons.mp hq with rfl | hqt
    · exact absurd hqe hne
    · exact ⟨q, hqt, hqe⟩

/-- C3: for a product whose inventory holds exactly the dated entries of
`m` (duplicate-free keys, positive amounts) and which has no grocery entry,
`use_product` with those exact pairs and `move_to_grocery` set removes every
listed expiry entry and leaves the grocery amount equal to the sum of the
used amounts. -/
theorem use_product_move_roundtrip (m : List (Nat × Int)) (st : KitchenState)
    (p : String) (hnd : (m.map Prod.fst).Nodup)
    (hpos : ∀ q ∈ m, 0 < q.2)
    (hinv : st.inventory p = some (m.map (fun q => ((q.1 : Int), q.2))))
    (hgroc : st.grocery p = none) :
    ∃ st', use_product st p (m.map (fun q => ((some q.1 : Option Nat), q.2)))
        true = some st' ∧
      st'.inventory p = some [] ∧
      (st'.grocery p).getD 0 = (m.map Prod.snd).sum := by
  have hraw : (st.inventory p).getD [] = m.map (fun q => ((q.1 : Int), q.2)) := by
    rw [hinv]; rfl
  obtain ⟨s', hfold, hinv', hg'⟩ :=
    useLoop_erases (m.map (fun q => ((q.1 : Int), q.2))) p m st
      (m.map (fun q => ((q.1 : Int), q.2)))
      (lookupA_map_self m hnd) hinv
  have huse : use_product st p (m.map (fun q => ((some q.1 : Option Nat), q.2)))
      true =
      ((m.map (fun q => ((some q.1 : Option Nat), q.2))).foldl
          (useStep ((st.inventory p).getD []) p) (some st)).map
        (fun s => setGrocCount s p (((s.grocery p).getD 0) +
          ((m.map (fun q => ((some q.1 : Option Nat), q.2))).map Prod.snd).sum)) :=
    rfl
  have hsnd : ((m.map (fun q => ((some q.1 : Option Nat), q.2))).map Prod.snd) =
      m.map Prod.snd := by
    simp
  have htotal0 : (0 : Int) ≤ (m.map Prod.snd).sum :=
    List.sum_nonneg fun x hx => by
      obtain ⟨q, hq, rfl⟩ := List.mem_map.mp hx
      exact le_of_lt (hpos q hq)
  refine ⟨setGrocCount s' p (((s'.grocery p).getD 0) + (m.map Prod.snd).sum),
    ?_, ?_, ?_⟩
  · rw [huse, hraw, hfold, hsnd]
    rfl
  · rw [show (setGrocCount s' p (((s'.grocery p).getD 0) +
        (m.map Prod.snd).sum)).inventory = s'.inventory from
        setGrocCount_inventory s' p _]
    rw [hinv']
    rw [foldl_eraseA_nil m _ fun pr hpr => ?_]
    obtain ⟨q, hq, rfl⟩ := List.mem_map.mp hpr
    exact ⟨q, hq, rfl⟩
  · have hgq : (s'.grocery p).getD 0 = 0 := by
      rw [hg', hgroc]; rfl
    rw [setGrocCount_grocery_at, hgq, zero_add]
    by_cases h : (m.map Prod.snd).sum ≤ 0
    · rw [if_pos h]
      exact (le_antisymm h htotal0).symm
    · rw [if_neg h]

/-- C3 witness: inventory of 4 units at timestamp 100 and 6 at 200 for
product `"P"` and no grocery entry; using exactly those amounts with
`move_to_grocery` leaves an emptied expiry object and grocery amount 10. -/
theorem use_product_move_roundtrip_witness :
    ∃ st', use_product stUse "P"
        ([(100, 4), (200, 6)].map (fun q => ((some q.1 : Option Nat), q.2)))
        true = some st' ∧
      st'.inventory "P" = some [] ∧
      (st'.grocery "P").getD 0 = ([((100 : Nat), (4 : Int)), (200, 6)].map
        Prod.snd).sum :=
  use_product_move_roundtrip [(100, 4), (200, 6)] stUse "P"
    (by decide) (by decide) (by rfl) (by rfl)

/-- Appending to a bucket keeps the key list unless the key is new, in which
case the key is pushed at the end. -/
theorem bucketAppend_map_fst (d : List (String × List GroceryProduct))
    (c : String) (p : GroceryProduct) :
    (bucketAppend d c p).map Prod.fst =
      (if d.any (fun e => e.1 == c) then d.map Prod.fst
       else d.map Prod.fst ++ [c]) := by
  unfold bucketAppend
  split
  · rw [List.map_map]
    apply List.map_congr_left
    intro e _
    by_cases he : e.1 = c <;> simp [he]
  · simp

/-- Appending a product whose category names its bucket (and which is only
zero-amount when that bucket is `"Unowned products"`) preserves bucket
well-formedness. -/
theorem bucketAppend_ok (d : List (String × List GroceryProduct))
    (c : String) (p : GroceryProduct) (hd : BucketsOK d)
    (hcat : p.category = c) (hz : p.amount = 0 → c = "Unowned products") :
    BucketsOK (bucketAppend d c p) := by
  obtain ⟨hnd, hmem⟩ := hd
  constructor
  · rw [bucketAppend_map_fst]
    split
    · exact hnd
    · next h =>
      have hcnot : c ∉ d.map Prod.fst := by
        intro hcmem
        obtain ⟨e, he, hce⟩ := List.mem_map.mp hcmem
        exact absurd (List.any_eq_true.mpr ⟨e, he, by simp [hce]⟩) h
      rw [List.nodup_append]
      exact ⟨hnd, List.nodup_singleton c, by simpa using hcnot⟩
  · intro e he q hq
    unfold bucketAppend at he
    split at he
    · obtain ⟨e0, he0, heq⟩ := List.mem_map.mp he
      by_cases hc0 : (e0.1 == c) = true
      · rw [if_pos hc0] at heq
        subst heq
        rcases List.mem_append.mp hq with hq0 | hq1
        · exact hmem e0 he0 q hq0
        · have hqp : q = p := by simpa using hq1
          subst hqp
          have hce : e0.1 = c := by simpa using hc0
          exact ⟨by rw [hcat, hce], fun h0 => by rw [hce]; exact hz h0⟩
      · rw [if_neg hc0] at heq
        subst heq
        exact hmem e0 he0 q hq
    · rcases List.mem_append.mp he with h1 | h2
      · exact hmem e h1 q hq
      · have he2 : e = (c, [p]) := by simpa using h2
        subst he2
        have hqp : q = p := by simpa using hq
        subst hqp
        exact ⟨hcat, hz⟩

/-- The bucketing loop succeeds on any id list whose every id resolves, and
its result is well-formed. -/
theorem buildBuckets_ok (catalog : String → Option (String × String))
    (custom : String → Option String) (grocery : String → Option Int) :
    ∀ (pids : List String) (d : List (String × List GroceryProduct)),
      BucketsOK d →
      (∀ pid ∈ pids, (resolveProduct catalog custom pid).isSome) →
      ∃ d', pids.foldl (bucketStep catalog custom grocery) (some d) = some d' ∧
        BucketsOK d' := by
  intro pids
  induction pids with
  | nil => exact fun d hd _ => ⟨d, rfl, hd⟩
  | cons pid rest ih =>
    intro d hd hres
    obtain ⟨nc, hnc⟩ :=
      Option.isSome_iff_exists.mp (hres pid (List.mem_cons_self _ _))
    have hgp : grocProduct catalog custom grocery pid =
        some { id := pid, name := nc.1, category := nc.2,
               amount := (grocery pid).getD 0 } := by
      simp [grocProduct, hnc]
    by_cases hz0 : ((grocery pid).getD 0 : Int) = 0
    · have hstep : bucketStep catalog custom grocery (some d) pid =
          some (bucketAppend d "Unowned products"
            { id := pid, name := nc.1, category := "Unowned products",
              amount := (grocery pid).getD 0 }) := by
        simp [bucketStep, hgp, hz0]
      have hok := bucketAppend_ok d "Unowned products"
        { id := pid, name := nc.1, category := "Unowned products",
          amount := (grocery pid).getD 0 } hd rfl (fun _ => rfl)
      rw [List.foldl_cons, hstep]
      exact ih _ hok (fun q hq => hres q (List.mem_cons_of_mem _ hq))
    · have hstep : bucketStep catalog custom grocery (some d) pid =
          some (bucketAppend d nc.2
            { id := pid, name := nc.1, category := nc.2,
              amount := (grocery pid).getD 0 }) := by
        simp [bucketStep, hgp, hz0]
      have hok := bucketAppend_ok d nc.2
        { id := pid, name := nc.1, category := nc.2,
          amount := (grocery pid).getD 0 } hd rfl
        (fun h0 => absurd h0 hz0)
      rw [List.foldl_cons, hstep]
      exact ih _ hok (fun q hq => hres q (List.mem_cons_of_mem _ hq))

/-- Products found in a bucket carry that bucket's category, and only the
`"Unowned products"` bucket holds zero-amount products. -/
theorem bucketFind_spec (d : List (String × List GroceryProduct))
    (hd : BucketsOK d) (c : String) :
    ∀ p ∈ bucketFind d c,
      p.category = c ∧ (p.amount = 0 → c = "Unowned products") := by
  intro p hp
  unfold bucketFind at hp
  cases hfind : d.find? (fun e => e.1 == c) with
  | none => rw [hfind] at hp; cases hp
  | some e =>
    rw [hfind] at hp
    have he : e ∈ d := List.mem_of_find?_eq_some hfind
    have hec : e.1 = c := by
      have := List.find?_some hfind
      simpa using this
    have hspec := hd.2 e he p (by simpa using hp)
    rw [hec] at hspec
    exact hspec

/-- C4: the assembled grocery page groups each matched product under its
(possibly re-labelled) category; zero-amount products sit only under the
synthetic `"Unowned products"` category; all other categories appear in
strictly ascending alphabetical order with `"Unowned products"` last when
present; and every category's products are sorted by name. -/
theorem grocery_page_unowned_last
    (catalog : String → Option (String × String))
    (custom : String → Option String) (grocery : String → Option Int)
    (grocIds defaultIds : List String) (query : String)
    (hres : ∀ pid ∈ mkProductIds grocIds defaultIds query,
      (resolveProduct catalog custom pid).isSome) :
    ∃ cats, grocery_page_model catalog custom grocery grocIds defaultIds
        query = some cats ∧
      (∀ e ∈ cats, (∀ p ∈ e.2, p.category = e.1 ∧
        (p.amount = 0 → e.1 = "Unowned products")) ∧
        List.Sorted nameLe e.2) ∧
      List.Sorted (· < ·) ((cats.map Prod.fst).filter
        (fun c => c != "Unowned products")) ∧
      ("Unowned products" ∈ cats.map Prod.fst →
        (cats.map Prod.fst).getLast? = some "Unowned products") := by
  obtain ⟨d, hd, hok⟩ := buildBuckets_ok catalog custom grocery
    (mkProductIds grocIds defaultIds query) []
    ⟨List.nodup_nil, fun e he => absurd he (List.not_mem_nil e)⟩ hres
  have horder : orderBuckets d =
      ((List.insertionSort (· ≤ ·)
          ((d.map Prod.fst).filter (fun c => c != "Unowned products"))) ++
        (if (d.map Prod.fst).contains "Unowned products" then
          ["Unowned products"] else [])).map
        (fun c => (c, List.insertionSort nameLe (bucketFind d c))) := rfl
  have hUnotin : "Unowned products" ∉
      List.insertionSort (· ≤ ·)
        ((d.map Prod.fst).filter (fun c => c != "Unowned products")) := by
    intro hmem
    have := (List.perm_insertionSort (· ≤ ·) _).subset hmem
    have := List.of_mem_filter this
    simp at this
  have hkeys : (orderBuckets d).map Prod.fst =
      (List.insertionSort (· ≤ ·)
          ((d.map Prod.fst).filter (fun c => c != "Unowned products"))) ++
        (if (d.map Prod.fst).contains "Unowned products" then
          ["Unowned products"] else []) := by
    rw [horder, List.map_map]
    simp [Function.comp_def]
  refine ⟨orderBuckets d, ?_, ?_, ?_, ?_⟩
  · show (buildBuckets catalog custom grocery
        (mkProductIds grocIds defaultIds query)).map orderBuckets = _
    unfold buildBuckets
    rw [hd]
    rfl
  · intro e he
    rw [horder] at he
    obtain ⟨c, _, rfl⟩ := List.mem_map.mp he
    constructor
    · intro p hp
      exact bucketFind_spec d hok c p
        ((List.perm_insertionSort nameLe _).subset hp)
    · exact List.sorted_insertionSort nameLe _
  · rw [hkeys, List.filter_append]
    have h1 : (List.insertionSort (· ≤ ·)
        ((d.map Prod.fst).filter (fun c => c != "Unowned products"))).filter
          (fun c => c != "Unowned products") =
        List.insertionSort (· ≤ ·)
          ((d.map Prod.fst).filter (fun c => c != "Unowned products")) := by
      apply List.filter_eq_self.mpr
      intro a ha
      have hmem : a ∈ (d.map Prod.fst).filter
          (fun c => c != "Unowned products") :=
        (List.perm_insertionSort (· ≤ ·)
          ((d.map Prod.fst).filter (fun c => c != "Unowned products"))).subset ha
      exact (List.mem_filter.mp hmem).2
    have h2 : (if (d.map Prod.fst).contains "Unowned products" then
        (["Unowned products"] : List String) else []).filter
          (fun c => c != "Unowned products") = [] := by
      split <;> simp
    rw [h1, h2, List.append_nil]
    have hs : List.Sorted (· ≤ ·)
        (List.insertionSort (· ≤ ·)
          ((d.map Prod.fst).filter (fun c => c != "Unowned products"))) :=
      List.sorted_insertionSort _ _
    have hn : (List.insertionSort (· ≤ ·)
        ((d.map Prod.fst).filter (fun c => c != "Unowned products"))).Nodup :=
      (List.perm_insertionSort (· ≤ ·) _).nodup_iff.mpr (hok.1.filter _)
    exact hs.lt_of_le hn
  · intro hU
    rw [hkeys] at hU ⊢
    rcases List.mem_append.mp hU with h | h
    · exact absurd h hUnotin
    · have hcontains : (d.map Prod.fst).contains "Unowned products" = true := by
        by_contra hc
        rw [Bool.not_eq_true] at hc
        rw [hc] at h
        cases h
      rw [hcontains]
      show (_ ++ ["Unowned products"]).getLast? = some "Unowned products"
      exact List.getLast?_concat _

/-- C4 witness: grocery list holding product `"p1"` (Milk, Dairy, amount 2)
with a query pulling in catalog products `"p2"` (Apples, Produce) and `"p3"`
(Bread, Bakery) that are not on the list. -/
theorem grocery_page_unowned_last_witness :
    ∃ cats, grocery_page_model
        (fun pid => if pid = "p1" then some ("Milk", "Dairy")
          else if pid = "p2" then some ("Apples", "Produce")
          else if pid = "p3" then some ("Bread", "Bakery") else none)
        (fun _ => none)
        (fun pid => if pid = "p1" then some 2 else none)
        ["p1"] ["p2", "p3"] "a" = some cats ∧
      (∀ e ∈ cats, (∀ p ∈ e.2, p.category = e.1 ∧
        (p.amount = 0 → e.1 = "Unowned products")) ∧
        List.Sorted nameLe e.2) ∧
      List.Sorted (· < ·) ((cats.map Prod.fst).filter
        (fun c => c != "Unowned products")) ∧
      ("Unowned products" ∈ cats.map Prod.fst →
        (cats.map Prod.fst).getLast? = some "Unowned products") :=
  grocery_page_unowned_last _ _ _ ["p1"] ["p2", "p3"] "a" (by decide)

@[simp] theorem users_updUsers (g : GState) (email : String) (u : UserRec)
    (e : String) :
    (updUsers g email u).users e = if e = email then some u else g.users e :=
  rfl

@[simp] theorem kitchens_updUsers (g : GState) (email : String) (u : UserRec) :
    (updUsers g email u).kitchens = g.kitchens :=
  rfl

@[simp] theorem kitchens_updKitchens (g : GState) (kid : String)
    (k : KitchenRec) (k2 : String) :
    (updKitchens g kid k).kitchens k2 =
      if k2 = kid then some k else g.kitchens k2 :=
  rfl

@[simp] theorem users_updKitchens (g : GState) (kid : String)
    (k : KitchenRec) : (updKitchens g kid k).users = g.users :=
  rfl

/-- The empty store satisfies the kitchen-membership invariant. -/
theorem kinv_initial : KInv initialG := by
  refine ⟨⟨?_, ?_⟩, ?_, ?_, ?_⟩
  · intro kid
    constructor
    · rintro ⟨e, u, hu, -⟩
      simp [initialG] at hu
    · rintro ⟨k, hk⟩
      simp [initialG] at hk
  · intro kid k hk
    simp [initialG] at hk
  · intro e u hu
    simp [initialG] at hu
  · intro kid k hk
    simp [initialG] at hk
  · intro kid k hk
    simp [initialG] at hk

/-- The sign-up operation preserves the kitchen-membership invariant. -/
theorem kinv_create_user (g : GState) (email : String) (h : KInv g) :
    KInv (create_user g email).1 := by
  obtain ⟨⟨h1, h2⟩, h3, h4, h5⟩ := h
  by_cases hc : (g.users email).isSome
  · have heq : create_user g email = (g, false) := by
      unfold create_user
      rw [if_pos hc]
    rw [heq]
    exact ⟨⟨h1, h2⟩, h3, h4, h5⟩
  · have hnone : g.users email = none := Option.not_isSome_iff_eq_none.mp hc
    have heq : create_user g email = (updUsers g email ⟨[], []⟩, true) := by
      unfold create_user
      rw [if_neg hc]
    rw [heq]
    have hkeep : ∀ e u, g.users e = some u →
        (updUsers g email ⟨[], []⟩).users e = some u := by
      intro e u hu
      have hne : e ≠ email := by
        intro he
        rw [he, hnone] at hu
        cases hu
      simp [hne, hu]
    have hback : ∀ e u, (updUsers g email ⟨[], []⟩).users e = some u →
        g.users e = some u ∨ (u = ⟨[], []⟩ ∧ e = email) := by
      intro e u hu
      by_cases he : e = email
      · right
        refine ⟨?_, he⟩
        rw [users_updUsers, if_pos he] at hu
        exact (Option.some.inj hu).symm
      · left
        rwa [users_updUsers, if_neg he] at hu
    refine ⟨⟨?_, ?_⟩, ?_, ?_, ?_⟩
    · intro kid
      constructor
      · rintro ⟨e, u, hu, hmem⟩
        rcases hback e u hu with hg | ⟨rfl, rfl⟩
        · exact (h1 kid).mp ⟨e, u, hg, hmem⟩
        · rcases hmem with hm | hm <;> cases hm
      · intro hk
        obtain ⟨e, u, hu, hmem⟩ := (h1 kid).mpr hk
        exact ⟨e, u, hkeep e u hu, hmem⟩
    · intro kid k hk email2
      constructor
      · intro hmem
        obtain ⟨u, hu, hm⟩ := (h2 kid k hk email2).mp hmem
        exact ⟨u, hkeep _ _ hu, hm⟩
      · rintro ⟨u, hu, hm⟩
        apply (h2 kid k hk email2).mpr
        rcases hback email2 u hu with hg | ⟨rfl, rfl⟩
        · exact ⟨u, hg, hm⟩
        · cases hm
    · intro e u hu
      rcases hback e u hu with hg | ⟨rfl, rfl⟩
      · exact h3 e u hg
      · exact List.nodup_nil
    · intro kid k hk
      exact h4 kid k hk
    · intro kid k hk
      obtain ⟨e, u, hu, hm⟩ := h5 kid k hk
      exact ⟨e, u, hkeep _ _ hu, hm⟩

/-- Kitchen creation by an existing account with a fresh random id preserves
the kitchen-membership invariant. -/
theorem kinv_create_kitchen (g : GState) (email kid : String)
    (husr : (g.users email).isSome = true)
    (hfresh : g.kitchens kid = none) (h : KInv g) :
    KInv (create_kitchen g email kid).1 := by
  obtain ⟨⟨h1, h2⟩, h3, h4, h5⟩ := h
  obtain ⟨u, hu0⟩ := Option.isSome_iff_exists.mp husr
  have hst : (create_kitchen g email kid).1 =
      updUsers (updKitchens g kid ⟨[]⟩) email
        { u with ownedKitchens := u.ownedKitchens ++ [kid] } := by
    simp only [create_kitchen, users_updKitchens, hu0]
  rw [hst]
  · have hnotin : ∀ e2 u2, g.users e2 = some u2 →
        kid ∉ u2.ownedKitchens ∧ kid ∉ u2.sharedKitchens := by
      intro e2 u2 hu2
      constructor <;> intro hmem
      · obtain ⟨k, hk⟩ := (h1 kid).mp ⟨e2, u2, hu2, Or.inl hmem⟩
        rw [hfresh] at hk
        cases hk
      · obtain ⟨k, hk⟩ := (h1 kid).mp ⟨e2, u2, hu2, Or.inr hmem⟩
        rw [hfresh] at hk
        cases hk
    have husers : ∀ e, (updUsers (updKitchens g kid ⟨[]⟩) email
        { u with ownedKitchens := u.ownedKitchens ++ [kid] }).users e =
        if e = email then
          some { u with ownedKitchens := u.ownedKitchens ++ [kid] }
        else g.users e := fun e => rfl
    have hkitch : ∀ k2, (updUsers (updKitchens g kid ⟨[]⟩) email
        { u with ownedKitchens := u.ownedKitchens ++ [kid] }).kitchens k2 =
        if k2 = kid then some ⟨[]⟩ else g.kitchens k2 := fun k2 => rfl
    have hback : ∀ e u2, (updUsers (updKitchens g kid ⟨[]⟩) email
        { u with ownedKitchens := u.ownedKitchens ++ [kid] }).users e =
          some u2 →
        (e = email ∧
          u2 = { u with ownedKitchens := u.ownedKitchens ++ [kid] }) ∨
        (e ≠ email ∧ g.users e = some u2) := by
      intro e u2 hu2
      rw [husers] at hu2
      by_cases he : e = email
      · rw [if_pos he] at hu2
        exact Or.inl ⟨he, (Option.some.inj hu2).symm⟩
      · rw [if_neg he] at hu2
        exact Or.inr ⟨he, hu2⟩
    have hlift : ∀ kid2, (∃ k, g.kitchens kid2 = some k) →
        ∃ k, (updUsers (updKitchens g kid ⟨[]⟩) email
          { u with ownedKitchens := u.ownedKitchens ++ [kid] }).kitchens kid2 =
          some k := by
      rintro kid2 ⟨k, hk⟩
      by_cases h2k : kid2 = kid
      · exact ⟨⟨[]⟩, by rw [hkitch, if_pos h2k]⟩
      · exact ⟨k, by rw [hkitch, if_neg h2k]; exact hk⟩
    refine ⟨⟨?_, ?_⟩, ?_, ?_, ?_⟩
    · intro kid2
      constructor
      · rintro ⟨e, u2, hu2, hmem⟩
        rcases hback e u2 hu2 with ⟨he, hequ⟩ | ⟨hne, hg⟩
        · rw [hequ] at hmem
          rcases hmem with hm | hm
          · rcases List.mem_append.mp hm with hm0 | hm1
            · exact hlift kid2 ((h1 kid2).mp ⟨email, u, hu0, Or.inl hm0⟩)
            · have hkk : kid2 = kid := by simpa using hm1
              exact ⟨⟨[]⟩, by rw [hkitch, if_pos hkk]⟩
          · exact hlift kid2 ((h1 kid2).mp ⟨email, u, hu0, Or.inr hm⟩)
        · exact hlift kid2 ((h1 kid2).mp ⟨e, u2, hg, hmem⟩)
      · rintro ⟨k2, hk2⟩
        rw [hkitch] at hk2
        by_cases h2k : kid2 = kid
        · refine ⟨email, { u with ownedKitchens := u.ownedKitchens ++ [kid] },
            by rw [husers, if_pos rfl], Or.inl ?_⟩
          rw [h2k]
          simp
        · rw [if_neg h2k] at hk2
          obtain ⟨e, u2, hu2, hm⟩ := (h1 kid2).mpr ⟨k2, hk2⟩
          by_cases he : e = email
          · rw [he, hu0] at hu2
            have hequ : u2 = u := (Option.some.inj hu2).symm
            rw [hequ] at hm
            refine ⟨email, { u with ownedKitchens := u.ownedKitchens ++ [kid] },
              by rw [husers, if_pos rfl], ?_⟩
            rcases hm with hm | hm
            · exact Or.inl (List.mem_append.mpr (Or.inl hm))
            · exact Or.inr hm
          · exact ⟨e, u2, by rw [husers, if_neg he]; exact hu2, hm⟩
    · intro kid2 k2 hk2 email2
      rw [hkitch] at hk2
      by_cases h2k : kid2 = kid
      · rw [if_pos h2k] at hk2
        have : k2 = ⟨[]⟩ := (Option.some.inj hk2).symm
        subst this
        constructor
        · intro hmem
          cases hmem
        · rintro ⟨u2, hu2, hm⟩
          rcases hback email2 u2 hu2 with ⟨he, hequ⟩ | ⟨hne, hg⟩
          · rw [hequ, h2k] at hm
            exact absurd hm (hnotin email u hu0).2
          · rw [h2k] at hm
            exact absurd hm (hnotin email2 u2 hg).2
      · rw [if_neg h2k] at hk2
        constructor
        · intro hmem
          obtain ⟨u2, hu2, hm⟩ := (h2 kid2 k2 hk2 email2).mp hmem
          by_cases he : email2 = email
          · rw [he, hu0] at hu2
            have hequ : u2 = u := (Option.some.inj hu2).symm
            rw [hequ] at hm
            exact ⟨{ u with ownedKitchens := u.ownedKitchens ++ [kid] },
              by rw [husers, if_pos he], hm⟩
          · exact ⟨u2, by rw [husers, if_neg he]; exact hu2, hm⟩
        · rintro ⟨u2, hu2, hm⟩
          apply (h2 kid2 k2 hk2 email2).mpr
          rcases hback email2 u2 hu2 with ⟨he, hequ⟩ | ⟨hne, hg⟩
          · rw [hequ] at hm
            rw [he]
            exact ⟨u, hu0, hm⟩
          · exact ⟨u2, hg, hm⟩
    · intro e u2 hu2
      rcases hback e u2 hu2 with ⟨he, hequ⟩ | ⟨hne, hg⟩
      · rw [hequ]
        exact h3 email u hu0
      · exact h3 e u2 hg
    · intro kid2 k2 hk2
      rw [hkitch] at hk2
      by_cases h2k : kid2 = kid
      · rw [if_pos h2k] at hk2
        have : k2 = ⟨[]⟩ := (Option.some.inj hk2).symm
        subst this
        exact List.nodup_nil
      · rw [if_neg h2k] at hk2
        exact h4 kid2 k2 hk2
    · intro kid2 k2 hk2
      rw [hkitch] at hk2
      by_cases h2k : kid2 = kid
      · refine ⟨email, { u with ownedKitchens := u.ownedKitchens ++ [kid] },
          by rw [husers, if_pos rfl], ?_⟩
        rw [h2k]
        simp
      · rw [if_neg h2k] at hk2
        obtain ⟨e3, u3, hu3, hm3⟩ := h5 kid2 k2 hk2
        by_cases he : e3 = email
        · rw [he, hu0] at hu3
          have hequ : u3 = u := (Option.some.inj hu3).symm
          rw [hequ] at hm3
          exact ⟨email, { u with ownedKitchens := u.ownedKitchens ++ [kid] },
            by rw [husers, if_pos rfl],
            List.mem_append.mpr (Or.inl hm3)⟩
        · exact ⟨e3, u3, by rw [husers, if_neg he]; exact hu3, hm3⟩

/-- A `share_kitchen` call that names an existing kitchen preserves the
kitchen-membership invariant (a call for an unknown target email raises
before any write, so it also preserves it). -/
theorem kinv_share_kitchen (g : GState) (kid email : String)
    (hks : (g.kitchens kid).isSome = true) (h : KInv g) :
    KInv (share_kitchen g kid email).1 := by
  obtain ⟨⟨h1, h2⟩, h3, h4, h5⟩ := h
  cases hacc : user_has_access g email kid with
  | none =>
    have hst : (share_kitchen g kid email).1 = g := by
      simp only [share_kitchen, hacc]
    rw [hst]
    exact ⟨⟨h1, h2⟩, h3, h4, h5⟩
  | some acc =>
    cases acc with
    | true =>
      have hst : (share_kitchen g kid email).1 = g := by
        simp only [share_kitchen, hacc]
      rw [hst]
      exact ⟨⟨h1, h2⟩, h3, h4, h5⟩
    | false =>
      obtain ⟨u, hu, hbool⟩ := Option.map_eq_some'.mp hacc
      have hnotin : kid ∉ u.ownedKitchens ∧ kid ∉ u.sharedKitchens := by
        constructor <;> intro hmem
        · have : u.ownedKitchens.contains kid = true := by simpa using hmem
          rw [this] at hbool
          simp at hbool
        · have : u.sharedKitchens.contains kid = true := by simpa using hmem
          rw [this] at hbool
          simp at hbool
      cases hk : g.kitchens kid with
      | none =>
        rw [hk] at hks
        simp at hks
      | some k =>
        have hst : (share_kitchen g kid email).1 = updKitchens
            (updUsers g email
              { u with sharedKitchens := u.sharedKitchens ++ [kid] }) kid
            { k with nonAdmins := k.nonAdmins ++ [email] } := by
          simp only [share_kitchen, hacc, hu, kitchens_updUsers, hk,
            Option.isNone_some, Bool.false_eq_true, if_false]
        rw [hst]
        have hmail : email ∉ k.nonAdmins := by
          intro hmem
          obtain ⟨u2, hu2, hm2⟩ := (h2 kid k hk email).mp hmem
          rw [hu] at hu2
          have : u2 = u := (Option.some.inj hu2).symm
          rw [this] at hm2
          exact hnotin.2 hm2
        have husers : ∀ e, (updKitchens
            (updUsers g email
              { u with sharedKitchens := u.sharedKitchens ++ [kid] }) kid
            { k with nonAdmins := k.nonAdmins ++ [email] }).users e =
            if e = email then
              some { u with sharedKitchens := u.sharedKitchens ++ [kid] }
            else g.users e := fun e => rfl
        have hkitch : ∀ k2, (updKitchens
            (updUsers g email
              { u with sharedKitchens := u.sharedKitchens ++ [kid] }) kid
            { k with nonAdmins := k.nonAdmins ++ [email] }).kitchens k2 =
            if k2 = kid then
              some { k with nonAdmins := k.nonAdmins ++ [email] }
            else g.kitchens k2 := fun k2 => rfl
        have hback : ∀ e u2, (updKitchens
            (updUsers g email
              { u with sharedKitchens := u.sharedKitchens ++ [kid] }) kid
            { k with nonAdmins := k.nonAdmins ++ [email] }).users e =
              some u2 →
            (e = email ∧
              u2 = { u with sharedKitchens := u.sharedKitchens ++ [kid] }) ∨
            (e ≠ email ∧ g.users e = some u2) := by
          intro e u2 hu2
          rw [husers] at hu2
          by_cases he : e = email
          · rw [if_pos he] at hu2
            exact Or.inl ⟨he, (Option.some.inj hu2).symm⟩
          · rw [if_neg he] at hu2
            exact Or.inr ⟨he, hu2⟩
        have hlift : ∀ kid2, (∃ k0, g.kitchens kid2 = some k0) →
            ∃ k0, (updKitchens
              (updUsers g email
                { u with sharedKitchens := u.sharedKitchens ++ [kid] }) kid
              { k with nonAdmins := k.nonAdmins ++ [email] }).kitchens kid2 =
              some k0 := by
          rintro kid2 ⟨k0, hk0⟩
          by_cases h2k : kid2 = kid
          · exact ⟨{ k with nonAdmins := k.nonAdmins ++ [email] },
              by rw [hkitch, if_pos h2k]⟩
          · exact ⟨k0, by rw [hkitch, if_neg h2k]; exact hk0⟩
        refine ⟨⟨?_, ?_⟩, ?_, ?_, ?_⟩
        · intro kid2
          constructor
          · rintro ⟨e, u2, hu2, hmem⟩
            rcases hback e u2 hu2 with ⟨he, hequ⟩ | ⟨hne, hgu⟩
            · rw [hequ] at hmem
              rcases hmem with hm | hm
              · exact hlift kid2 ((h1 kid2).mp ⟨email, u, hu, Or.inl hm⟩)
              · rcases List.mem_append.mp hm with hm0 | hm1
                · exact hlift kid2 ((h1 kid2).mp ⟨email, u, hu, Or.inr hm0⟩)
                · have hkk : kid2 = kid := by simpa using hm1
                  exact ⟨{ k with nonAdmins := k.nonAdmins ++ [email] },
                    by rw [hkitch, if_pos hkk]⟩
            · exact hlift kid2 ((h1 kid2).mp ⟨e, u2, hgu, hmem⟩)
          · rintro ⟨k2, hk2⟩
            rw [hkitch] at hk2
            by_cases h2k : kid2 = kid
            · refine ⟨email,
                { u with sharedKitchens := u.sharedKitchens ++ [kid] },
                by rw [husers, if_pos rfl], Or.inr ?_⟩
              rw [h2k]
              simp
            · rw [if_neg h2k] at hk2
              obtain ⟨e, u2, hu2, hm⟩ := (h1 kid2).mpr ⟨k2, hk2⟩
              by_cases he : e = email
              · rw [he, hu] at hu2
                have hequ : u2 = u := (Option.some.inj hu2).symm
                rw [hequ] at hm
                refine ⟨email,
                  { u with sharedKitchens := u.sharedKitchens ++ [kid] },
                  by rw [husers, if_pos rfl], ?_⟩
                rcases hm with hm | hm
                · exact Or.inl hm
                · exact Or.inr (List.mem_append.mpr (Or.inl hm))
              · exact ⟨e, u2, by rw [husers, if_neg he]; exact hu2, hm⟩
        · intro kid2 k2 hk2 email2
          rw [hkitch] at hk2
          by_cases h2k : kid2 = kid
          · rw [if_pos h2k] at hk2
            have hke : k2 = { k with nonAdmins := k.nonAdmins ++ [email] } :=
              (Option.some.inj hk2).symm
            rw [hke, h2k]
            constructor
            · intro hmem
              rcases List.mem_append.mp hmem with hm0 | hm1
              · obtain ⟨u2, hu2, hm2⟩ := (h2 kid k hk email2).mp hm0
                by_cases he : email2 = email
                · rw [he, hu] at hu2
                  have hequ : u2 = u := (Option.some.inj hu2).symm
                  rw [hequ] at hm2
                  exact absurd hm2 hnotin.2
                · exact ⟨u2, by rw [husers, if_neg he]; exact hu2, hm2⟩
              · have he : email2 = email := by simpa using hm1
                refine ⟨{ u with sharedKitchens := u.sharedKitchens ++ [kid] },
                  by rw [husers, if_pos he], ?_⟩
                simp
            · rintro ⟨u2, hu2, hm2⟩
              rcases hback email2 u2 hu2 with ⟨he, hequ⟩ | ⟨hne, hgu⟩
              · rw [he]
                exact List.mem_append.mpr (Or.inr (List.mem_singleton.mpr rfl))
              · refine List.mem_append.mpr (Or.inl ?_)
                exact (h2 kid k hk email2).mpr ⟨u2, hgu, hm2⟩
          · rw [if_neg h2k] at hk2
            constructor
            · intro hmem
              obtain ⟨u2, hu2, hm2⟩ := (h2 kid2 k2 hk2 email2).mp hmem
              by_cases he : email2 = email
              · rw [he, hu] at hu2
                have hequ : u2 = u := (Option.some.inj hu2).symm
                rw [hequ] at hm2
                exact ⟨{ u with sharedKitchens := u.sharedKitchens ++ [kid] },
                  by rw [husers, if_pos he],
                  List.mem_append.mpr (Or.inl hm2)⟩
              · exact ⟨u2, by rw [husers, if_neg he]; exact hu2, hm2⟩
            · rintro ⟨u2, hu2, hm2⟩
              apply (h2 kid2 k2 hk2 email2).mpr
              rcases hback email2 u2 hu2 with ⟨he, hequ⟩ | ⟨hne, hgu⟩
              · rw [hequ] at hm2
                rcases List.mem_append.mp hm2 with hm0 | hm1
                · rw [he]
                  exact ⟨u, hu, hm0⟩
                · have : kid2 = kid := by simpa using hm1
                  exact absurd this h2k
              · exact ⟨u2, hgu, hm2⟩
        · intro e u2 hu2
          rcases hback e u2 hu2 with ⟨he, hequ⟩ | ⟨hne, hgu⟩
          · rw [hequ]
            show (u.sharedKitchens ++ [kid]).Nodup
            rw [List.nodup_append]
            exact ⟨h3 email u hu, List.nodup_singleton kid,
              by simpa using hnotin.2⟩
          · exact h3 e u2 hgu
        · intro kid2 k2 hk2
          rw [hkitch] at hk2
          by_cases h2k : kid2 = kid
          · rw [if_pos h2k] at hk2
            have hke : k2 = { k with nonAdmins := k.nonAdmins ++ [email] } :=
              (Option.some.inj hk2).symm
            rw [hke]
            show (k.nonAdmins ++ [email]).Nodup
            rw [List.nodup_append]
            exact ⟨h4 kid k hk, List.nodup_singleton email,
              by simpa using hmail⟩
          · rw [if_neg h2k] at hk2
            exact h4 kid2 k2 hk2
        · intro kid2 k2 hk2
          rw [hkitch] at hk2
          by_cases h2k : kid2 = kid
          · obtain ⟨e3, u3, hu3, hm3⟩ := h5 kid k hk
            by_cases he : e3 = email
            · rw [he, hu] at hu3
              have hequ : u3 = u := (Option.some.inj hu3).symm
              rw [hequ] at hm3
              refine ⟨email,
                { u with sharedKitchens := u.sharedKitchens ++ [kid] },
                by rw [husers, if_pos rfl], ?_⟩
              rw [h2k]
              exact hm3
            · refine ⟨e3, u3, by rw [husers, if_neg he]; exact hu3, ?_⟩
              rw [h2k]
              exact hm3
          · rw [if_neg h2k] at hk2
            obtain ⟨e3, u3, hu3, hm3⟩ := h5 kid2 k2 hk2
            by_cases he : e3 = email
            · rw [he, hu] at hu3
              have hequ : u3 = u := (Option.some.inj hu3).symm
              rw [hequ] at hm3
              exact ⟨email,
                { u with sharedKitchens := u.sharedKitchens ++ [kid] },
                by rw [husers, if_pos rfl], hm3⟩
            · exact ⟨e3, u3, by rw [husers, if_neg he]; exact hu3, hm3⟩

/-- Every `leave_kitchen` call from an invariant-satisfying store preserves
the kitchen-membership invariant: the raising paths either write nothing (no
such user, kitchen not in the user's shared list) or are unreachable because
the invariant guarantees the kitchen record and the member entry exist once
the kitchen id is in the user's shared list. -/
theorem kinv_leave_kitchen (g : GState) (email kid : String) (h : KInv g) :
    KInv (leave_kitchen g email kid).1 := by
  obtain ⟨⟨h1, h2⟩, h3, h4, h5⟩ := h
  cases hu : g.users email with
  | none =>
    have hst : (leave_kitchen g email kid).1 = g := by
      simp only [leave_kitchen, hu]
    rw [hst]
    exact ⟨⟨h1, h2⟩, h3, h4, h5⟩
  | some u =>
    by_cases hcontP : u.sharedKitchens.contains kid = true
    case neg =>
      have hcf : u.sharedKitchens.contains kid = false := by
        cases hb : u.sharedKitchens.contains kid with
        | false => rfl
        | true => exact absurd hb hcontP
      have hst : (leave_kitchen g email kid).1 = g := by
        simp only [leave_kitchen, hu, hcf, Bool.false_eq_true, if_false]
      rw [hst]
      exact ⟨⟨h1, h2⟩, h3, h4, h5⟩
    case pos =>
      have hcont := hcontP
      have hmemS0 : kid ∈ u.sharedKitchens := by simpa using hcont
      obtain ⟨k0, hk0⟩ := (h1 kid).mp ⟨email, u, hu, Or.inr hmemS0⟩
      cases hk : g.kitchens kid with
      | none =>
        rw [hk] at hk0
        cases hk0
      | some k =>
        have hmemN0 : email ∈ k.nonAdmins :=
          (h2 kid k hk email).mpr ⟨u, hu, hmemS0⟩
        by_cases hmembP : k.nonAdmins.contains email = true
        case neg =>
          exact absurd (by simpa using hmemN0) hmembP
        case pos =>
          have hmembN := hmembP
          have hst : (leave_kitchen g email kid).1 = updKitchens
              (updUsers g email
                { u with sharedKitchens := u.sharedKitchens.erase kid }) kid
              { k with nonAdmins := k.nonAdmins.erase email } := by
            simp only [leave_kitchen, hu, hcont, kitchens_updUsers, hk,
              hmembP, if_true]
          rw [hst]
          have hmemS : kid ∈ u.sharedKitchens := by simpa using hcont
          have hmemN : email ∈ k.nonAdmins := by simpa using hmembN
          have hndS : u.sharedKitchens.Nodup := h3 email u hu
          have hndN : k.nonAdmins.Nodup := h4 kid k hk
          have husers : ∀ e, (updKitchens
              (updUsers g email
                { u with sharedKitchens := u.sharedKitchens.erase kid }) kid
              { k with nonAdmins := k.nonAdmins.erase email }).users e =
              if e = email then
                some { u with sharedKitchens := u.sharedKitchens.erase kid }
              else g.users e := fun e => rfl
          have hkitch : ∀ k2, (updKitchens
              (updUsers g email
                { u with sharedKitchens := u.sharedKitchens.erase kid }) kid
              { k with nonAdmins := k.nonAdmins.erase email }).kitchens k2 =
              if k2 = kid then
                some { k with nonAdmins := k.nonAdmins.erase email }
              else g.kitchens k2 := fun k2 => rfl
          have hback : ∀ e u2, (updKitchens
              (updUsers g email
                { u with sharedKitchens := u.sharedKitchens.erase kid }) kid
              { k with nonAdmins := k.nonAdmins.erase email }).users e =
                some u2 →
              (e = email ∧
                u2 = { u with
                  sharedKitchens := u.sharedKitchens.erase kid }) ∨
              (e ≠ email ∧ g.users e = some u2) := by
            intro e u2 hu2
            rw [husers] at hu2
            by_cases he : e = email
            · rw [if_pos he] at hu2
              exact Or.inl ⟨he, (Option.some.inj hu2).symm⟩
            · rw [if_neg he] at hu2
              exact Or.inr ⟨he, hu2⟩
          have hlift : ∀ kid2, (∃ k0, g.kitchens kid2 = some k0) →
              ∃ k0, (updKitchens
                (updUsers g email
                  { u with sharedKitchens := u.sharedKitchens.erase kid }) kid
                { k with nonAdmins := k.nonAdmins.erase email }).kitchens
                  kid2 = some k0 := by
            rintro kid2 ⟨k0, hk0⟩
            by_cases h2k : kid2 = kid
            · exact ⟨{ k with nonAdmins := k.nonAdmins.erase email },
                by rw [hkitch, if_pos h2k]⟩
            · exact ⟨k0, by rw [hkitch, if_neg h2k]; exact hk0⟩
          refine ⟨⟨?_, ?_⟩, ?_, ?_, ?_⟩
          · intro kid2
            constructor
            · rintro ⟨e, u2, hu2, hmem⟩
              rcases hback e u2 hu2 with ⟨he, hequ⟩ | ⟨hne, hgu⟩
              · rw [hequ] at hmem
                rcases hmem with hm | hm
                · exact hlift kid2 ((h1 kid2).mp ⟨email, u, hu, Or.inl hm⟩)
                · have : kid2 ∈ u.sharedKitchens := List.mem_of_mem_erase hm
                  exact hlift kid2 ((h1 kid2).mp ⟨email, u, hu, Or.inr this⟩)
              · exact hlift kid2 ((h1 kid2).mp ⟨e, u2, hgu, hmem⟩)
            · rintro ⟨k2, hk2⟩
              rw [hkitch] at hk2
              by_cases h2k : kid2 = kid
              · obtain ⟨e3, u3, hu3, hm3⟩ := h5 kid k hk
                by_cases he : e3 = email
                · rw [he, hu] at hu3
                  have hequ : u3 = u := (Option.some.inj hu3).symm
                  rw [hequ] at hm3
                  refine ⟨email,
                    { u with sharedKitchens := u.sharedKitchens.erase kid },
                    by rw [husers, if_pos rfl], Or.inl ?_⟩
                  rw [h2k]
                  exact hm3
                · refine ⟨e3, u3,
                    by rw [husers, if_neg he]; exact hu3, Or.inl ?_⟩
                  rw [h2k]
                  exact hm3
              · rw [if_neg h2k] at hk2
                obtain ⟨e, u2, hu2, hm⟩ := (h1 kid2).mpr ⟨k2, hk2⟩
                by_cases he : e = email
                · rw [he, hu] at hu2
                  have hequ : u2 = u := (Option.some.inj hu2).symm
                  rw [hequ] at hm
                  refine ⟨email,
                    { u with sharedKitchens := u.sharedKitchens.erase kid },
                    by rw [husers, if_pos rfl], ?_⟩
                  rcases hm with hm | hm
                  · exact Or.inl hm
                  · exact Or.inr ((List.Nodup.mem_erase_iff hndS).mpr
                      ⟨h2k, hm⟩)
                · exact ⟨e, u2, by rw [husers, if_neg he]; exact hu2, hm⟩
          · intro kid2 k2 hk2 email2
            rw [hkitch] at hk2
            by_cases h2k : kid2 = kid
            · rw [if_pos h2k] at hk2
              have hke : k2 = { k with nonAdmins := k.nonAdmins.erase email } :=
                (Option.some.inj hk2).symm
              rw [hke, h2k]
              constructor
              · intro hmem
                obtain ⟨hne2, hmm⟩ := (List.Nodup.mem_erase_iff hndN).mp hmem
                obtain ⟨u2, hu2, hm2⟩ := (h2 kid k hk email2).mp hmm
                exact ⟨u2, by rw [husers, if_neg hne2]; exact hu2, hm2⟩
              · rintro ⟨u2, hu2, hm2⟩
                rcases hback email2 u2 hu2 with ⟨he, hequ⟩ | ⟨hne, hgu⟩
                · rw [hequ] at hm2
                  obtain ⟨hne0, -⟩ := (List.Nodup.mem_erase_iff hndS).mp hm2
                  exact absurd rfl hne0
                · exact (List.Nodup.mem_erase_iff hndN).mpr
                    ⟨hne, (h2 kid k hk email2).mpr ⟨u2, hgu, hm2⟩⟩
            · rw [if_neg h2k] at hk2
              constructor
              · intro hmem
                obtain ⟨u2, hu2, hm2⟩ := (h2 kid2 k2 hk2 email2).mp hmem
                by_cases he : email2 = email
                · rw [he, hu] at hu2
                  have hequ : u2 = u := (Option.some.inj hu2).symm
                  rw [hequ] at hm2
                  exact ⟨{ u with
                      sharedKitchens := u.sharedKitchens.erase kid },
                    by rw [husers, if_pos he],
                    (List.Nodup.mem_erase_iff hndS).mpr ⟨h2k, hm2⟩⟩
                · exact ⟨u2, by rw [husers, if_neg he]; exact hu2, hm2⟩
              · rintro ⟨u2, hu2, hm2⟩
                apply (h2 kid2 k2 hk2 email2).mpr
                rcases hback email2 u2 hu2 with ⟨he, hequ⟩ | ⟨hne, hgu⟩
                · rw [hequ] at hm2
                  rw [he]
                  exact ⟨u, hu, List.mem_of_mem_erase hm2⟩
                · exact ⟨u2, hgu, hm2⟩
          · intro e u2 hu2
            rcases hback e u2 hu2 with ⟨he, hequ⟩ | ⟨hne, hgu⟩
            · rw [hequ]
              exact List.Nodup.erase kid hndS
            · exact h3 e u2 hgu
          · intro kid2 k2 hk2
            rw [hkitch] at hk2
            by_cases h2k : kid2 = kid
            · rw [if_pos h2k] at hk2
              have hke : k2 =
                  { k with nonAdmins := k.nonAdmins.erase email } :=
                (Option.some.inj hk2).symm
              rw [hke]
              exact List.Nodup.erase email hndN
            · rw [if_neg h2k] at hk2
              exact h4 kid2 k2 hk2
          · intro kid2 k2 hk2
            rw [hkitch] at hk2
            by_cases h2k : kid2 = kid
            · obtain ⟨e3, u3, hu3, hm3⟩ := h5 kid k hk
              by_cases he : e3 = email
              · rw [he, hu] at hu3
                have hequ : u3 = u := (Option.some.inj hu3).symm
                rw [hequ] at hm3
                refine ⟨email,
                  { u with sharedKitchens := u.sharedKitchens.erase kid },
                  by rw [husers, if_pos rfl], ?_⟩
                rw [h2k]
                exact hm3
              · refine ⟨e3, u3, by rw [husers, if_neg he]; exact hu3, ?_⟩
                rw [h2k]
                exact hm3
            · rw [if_neg h2k] at hk2
              obtain ⟨e3, u3, hu3, hm3⟩ := h5 kid2 k2 hk2
              by_cases he : e3 = email
              · rw [he, hu] at hu3
                have hequ : u3 = u := (Option.some.inj hu3).symm
                rw [hequ] at hm3
                exact ⟨email,
                  { u with sharedKitchens := u.sharedKitchens.erase kid },
                  by rw [husers, if_pos rfl], hm3⟩
              · exact ⟨e3, u3, by rw [husers, if_neg he]; exact hu3, hm3⟩

/-- Every store state reachable under the amended claim's operating
conditions satisfies the strengthened invariant. -/
theorem reachable_kinv (g : GState) (h : ReachableOk g) : KInv g := by
  induction h with
  | init => exact kinv_initial
  | createUser g0 email hr ih =>
    exact kinv_create_user g0 email ih
  | createKitchen g0 email kid hr husr hfresh ih =>
    exact kinv_create_kitchen g0 email kid husr hfresh ih
  | shareKitchen g0 kid email hr hks ih =>
    exact kinv_share_kitchen g0 kid email hks ih
  | leaveKitchen g0 email kid hr ih =>
    exact kinv_leave_kitchen g0 email kid ih

/-- C9 counterexample: the invariant claim as stated is false — a
symmetry-violating store is reachable from the empty store by the kitchen
operations.  Signing up `"bob"` and then sharing the nonexistent kitchen id
`"KX"` with him completes (the kitchen-side `$`-path append matches nothing
and is silently skipped, with no rollback of the user-side append), leaving
`"KX"` dangling in bob's shared-kitchen list with no kitchen record. -/
theorem share_dangling_breaks_symmetry :
    Reachable (share_kitchen (create_user initialG "bob").1 "KX" "bob").1 ∧
    ¬ MemSym (share_kitchen (create_user initialG "bob").1 "KX" "bob").1 := by
  constructor
  · exact Reachable.shareKitchen (create_user initialG "bob").1 "KX" "bob"
      (Reachable.createUser initialG "bob" Reachable.init)
  · intro hms
    obtain ⟨k, hk⟩ := (hms.1 "KX").mp
      ⟨"bob", ⟨[], ["KX"]⟩, rfl, Or.inr (List.mem_singleton.mpr rfl)⟩
    have hk2 : (none : Option KitchenRec) = some k := hk
    cases hk2

/-- A second symmetry-violating reachable store, using only `create_kitchen`
from the empty state: for an unknown creator email the kitchen record is
written before the owner-side append raises, leaving an owner-less kitchen
record behind. -/
theorem create_kitchen_orphan_breaks_symmetry :
    Reachable (create_kitchen initialG "ghost" "K1").1 ∧
    ¬ MemSym (create_kitchen initialG "ghost" "K1").1 := by
  constructor
  · exact Reachable.createKitchen initialG "ghost" "K1" Reachable.init
  · intro hms
    obtain ⟨e, u, hu, -⟩ := (hms.1 "K1").mpr ⟨⟨[]⟩, rfl⟩
    have hu2 : (none : Option UserRec) = some u := hu
    cases hu2

/-- C9 (amended): membership symmetry holds in every store state reachable
from the empty store by the account and kitchen operations when every
`create_kitchen` call is made by an existing account under a fresh random id
and every `share_kitchen` call names an existing kitchen; sign-up, leaving,
and sharing with an unknown target email are unrestricted. -/
theorem kitchen_membership_symmetry (g : GState) (h : ReachableOk g) :
    MemSym g :=
  (reachable_kinv g h).1

/-- C9 witness: the state reached by signing up `"alice"` and creating her
kitchen `"K1"` satisfies membership symmetry. -/
theorem kitchen_membership_symmetry_witness :
    MemSym (create_kitchen (create_user initialG "alice").1 "alice" "K1").1 :=
  kitchen_membership_symmetry _
    (ReachableOk.createKitchen (create_user initialG "alice").1 "alice" "K1"
      (ReachableOk.createUser initialG "alice" ReachableOk.init) rfl rfl)
